import Mathlib

/-!
Verification of the `justkd/uidmanager` library against its specification.

The development shallowly embeds the two source components:

* the identifier generator (`src/lib/uid.ts`): the byte lookup table,
  `formatUid`, the version-4 validator regex, `setExisting`, `getExisting`
  and the `generate` retry loop;
* the association manager (`uidmanager.ts`): the key/identifier map and the
  operations `generateUIDFor`, `getUIDFor`, `getKeyFor`, `set`, `restore`,
  the deletion operations and the snapshot accessors.

JavaScript-specific behaviour is modelled explicitly: 32-bit unsigned
arithmetic becomes `Nat` arithmetic with `% 4294967296`, string truthiness
becomes non-emptiness, and the truthiness of an array object is the constant
`true` (every JavaScript array is truthy).  Randomness is supplied as an
explicit list of quadruples of 32-bit values, one per call to
`getRandomValues`; exhausting that list models the retry loop not having
terminated yet and is signalled by `none`.
-/

namespace Uid

/-- Hexadecimal digit characters produced by JavaScript's
`Number.prototype.toString(16)`: digits `0`-`9` are codes `48 + n`, and the
values `10`-`15` are the lowercase letters `a`-`f` at codes `87 + n`. -/
def hexChar (n : Nat) : Char :=
  Char.ofNat (if n < 10 then 48 + n else 87 + n)

/-- Rendering of `i.toString(16)` for the byte range used by the lookup
table: a single hex digit below 16, two hex digits otherwise. -/
def jsToString16 (i : Nat) : String :=
  if i < 16 then String.mk [hexChar i]
  else String.mk [hexChar (i / 16), hexChar (i % 16)]

/-- Entry `i` of the generator's lookup table
`(i < 16 ? "0" : "") + i.toString(16)`: the two-character lowercase
hexadecimal rendering of the byte `i`. -/
def lookup (i : Nat) : String :=
  (if i < 16 then "0" else "") ++ jsToString16 i

/-- Byte extraction `(x >> s) & 0xff` applied to a 32-bit unsigned value,
as arithmetic on `Nat` (the argument is reduced modulo `2^32` the way every
JavaScript bitwise operator coerces its operand). -/
def byte (x s : Nat) : Nat :=
  x % 4294967296 / 2 ^ s % 256

/-- Embedding of `formatUid`: packs four 32-bit unsigned values into the
five-group identifier layout, forcing the version nibble via
`((values[1] >> 16) & 0x0f) | 0x40` and the variant bits via
`(values[2] & 0x3f) | 0x80`, and joins the two-character byte renderings
with hyphens. -/
def formatUid (a b c d : Nat) : String :=
  let v0 := lookup (byte a 0)
  let v1 := lookup (byte a 8)
  let v2 := lookup (byte a 16)
  let v3 := lookup (byte a 24)
  let v4 := lookup (byte b 0)
  let v5 := lookup (byte b 8)
  let v6 := lookup ((b % 4294967296 / 2 ^ 16 &&& 15) ||| 64)
  let v7 := lookup (byte b 24)
  let v8 := lookup ((c % 4294967296 &&& 63) ||| 128)
  let v9 := lookup (byte c 8)
  let v10 := lookup (byte c 16)
  let v11 := lookup (byte c 24)
  let v12 := lookup (byte d 0)
  let v13 := lookup (byte d 8)
  let v14 := lookup (byte d 16)
  let v15 := lookup (byte d 24)
  let s0 := v0 ++ v1 ++ v2 ++ v3
  let s1 := v4 ++ v5
  let s2 := v6 ++ v7
  let s3 := v8 ++ v9
  let s4 := v10 ++ v11 ++ v12 ++ v13 ++ v14 ++ v15
  s0 ++ "-" ++ s1 ++ "-" ++ s2 ++ "-" ++ s3 ++ "-" ++ s4

/-- Character class `[0-9A-F]` of the validator regex under its `i` flag:
decimal digits, lowercase `a`-`f`, or uppercase `A`-`F`. -/
def hexCI (ch : Char) : Bool :=
  decide ((48 ≤ ch.toNat ∧ ch.toNat ≤ 57) ∨ (97 ≤ ch.toNat ∧ ch.toNat ≤ 102) ∨
    (65 ≤ ch.toNat ∧ ch.toNat ≤ 70))

/-- Character class `[89AB]` of the validator regex under its `i` flag. -/
def variantCI (ch : Char) : Bool :=
  decide (ch.toNat = 56 ∨ ch.toNat = 57 ∨ ch.toNat = 97 ∨ ch.toNat = 98 ∨
    ch.toNat = 65 ∨ ch.toNat = 66)

/-- Consume exactly `n` characters of the class `[0-9A-F]` (case
insensitive), returning the rest of the input. -/
def takeHex : Nat → List Char → Option (List Char)
  | 0, cs => some cs
  | _ + 1, [] => none
  | n + 1, ch :: cs => if hexCI ch then takeHex n cs else none

/-- Consume a literal `-` (character code 45). -/
def expectHyphen : List Char → Option (List Char)
  | ch :: cs => if ch.toNat = 45 then some cs else none
  | [] => none

/-- Consume the literal version marker `4` (character code 52) that opens
the third group of the regex. -/
def expectVersion : List Char → Option (List Char)
  | ch :: cs => if ch.toNat = 52 then some cs else none
  | [] => none

/-- Consume one character of the variant class `[89AB]` (case insensitive)
that opens the fourth group of the regex. -/
def expectVariant : List Char → Option (List Char)
  | ch :: cs => if variantCI ch then some cs else none
  | [] => none

/-- Anchored match of
`^[0-9A-F]{8}-[0-9A-F]{4}-4[0-9A-F]{3}-[89AB][0-9A-F]{3}-[0-9A-F]{12}$/i`
as a sequential parse of the character list; the whole input must be
consumed. -/
def reV4TestChars (cs : List Char) : Bool :=
  match ((((((((((takeHex 8 cs).bind expectHyphen).bind
      (takeHex 4)).bind expectHyphen).bind expectVersion).bind
      (takeHex 3)).bind expectHyphen).bind expectVariant).bind
      (takeHex 3)).bind expectHyphen).bind (takeHex 12) with
  | some [] => true
  | _ => false

/-- Test `re.test(id)` of the validator regex on a string. -/
def reV4Test (s : String) : Bool :=
  reV4TestChars s.data

/-- Truthiness of a JavaScript string: every string except `""` is truthy. -/
def jsTruthy (s : String) : Bool :=
  !s.data.isEmpty

/-- Input type of `validate`: `null | string | (string | null)[]`, where
`vnull` also stands for `undefined`. -/
inductive ValidateInput where
  | vnull
  | vstr (s : String)
  | varr (l : List (Option String))

/-- Embedding of `validator`: a falsy input (`null`, `undefined`, `""`)
yields `[]`; a single string is wrapped into a one-element array; the array
is filtered by `(id) => id && re.test(id)`, dropping `null` elements and
falsy or non-matching strings while preserving order and casing. -/
def validator : ValidateInput → List String
  | .vnull => []
  | .vstr s =>
    if !jsTruthy s then []
    else [s].filter fun id => jsTruthy id && reV4Test id
  | .varr l =>
    l.filterMap fun o =>
      match o with
      | some s => if jsTruthy s && reV4Test s then some s else none
      | none => none

/-- Embedding of `setExisting`: validate every candidate; when the filtered
list has the same length as the input (all candidates passed), the ledger is
replaced by the validated list and `true` is returned, otherwise the ledger
is kept and `false` is returned. -/
def setExisting (ids generated : List String) : Bool × List String :=
  let validated := validator (.varr (ids.map some))
  if validated.length = ids.length then (true, validated) else (false, generated)

/-- Embedding of `getExisting`: a snapshot copy of the ledger. -/
def getExisting (generated : List String) : List String :=
  generated

/-- One quadruple of 32-bit unsigned values, the result of a single
`getRandomValues()` call. -/
abbrev Quad := Nat × Nat × Nat × Nat

/-- The retry loop of `generate`: format successive random quadruples until
a candidate not contained in the ledger appears.  `none` models the supplied
randomness running out before a fresh candidate was found. -/
def genScan : List Quad → List String → Option String
  | [], _ => none
  | (a, b, c, d) :: rest, generated =>
    let id := formatUid a b c d
    if id ∈ generated then genScan rest generated else some id

/-- Embedding of `generate`: find a fresh candidate, push it onto the
ledger, and return it together with the new ledger. -/
def generate (rands : List Quad) (generated : List String) :
    Option (String × List String) :=
  match genScan rands generated with
  | some id => some (id, generated ++ [id])
  | none => none

/-- A sequence of `generate` calls, each consuming its own randomness
supply, threading the ledger through. -/
def genMany : List (List Quad) → List String → Option (List String × List String)
  | [], generated => some ([], generated)
  | r :: rs, generated =>
    match generate r generated with
    | none => none
    | some (id, generated') =>
      match genMany rs generated' with
      | none => none
      | some (ids, generated'') => some (id :: ids, generated'')

/-- ASCII lowercasing of one character, the behaviour of
`String.prototype.toLowerCase` on the code points occurring in identifier
strings: `A`-`Z` (codes 65-90) shift by 32, everything else is fixed. -/
def lowerChar (ch : Char) : Char :=
  if 65 ≤ ch.toNat ∧ ch.toNat ≤ 90 then Char.ofNat (ch.toNat + 32) else ch

/-- Embedding of `v.toLowerCase()`, applied characterwise. -/
def lowerStr (s : String) : String :=
  String.mk (s.data.map lowerChar)

end Uid

namespace UIDManager

/-- A key value as seen by the manager: either one of the three rejected
JavaScript values `undefined`, `null`, `NaN`, or a proper key drawn from an
arbitrary type `K` compared by the host equality (`Map` uses SameValueZero,
under which `NaN` equals itself). -/
inductive KeyV (K : Type) where
  | undefined
  | null
  | nan
  | val (k : K)
deriving DecidableEq

/-- Result values of `getUIDFor`/`getKeyFor`, distinguishing the JavaScript
`undefined` and `null` sentinels from a proper value. -/
inductive JSVal (α : Type) where
  | undefined
  | null
  | val (a : α)
deriving DecidableEq

/-- Validity check applied to keys by `generateUIDFor`, `set` and `restore`:
a key passes unless it is `undefined`, `null` or `NaN`. -/
def validKey {K : Type} : KeyV K → Bool
  | .val _ => true
  | _ => false

/-- State owned by one manager instance: the association `Map` as an
insertion-ordered list of key/identifier pairs, and the ledger of the
manager's own generator instance. -/
structure MState (K : Type) where
  map : List (KeyV K × String)
  ledger : List String
deriving DecidableEq

variable {K : Type} [DecidableEq K]

/-- State of a freshly constructed manager: empty map, empty ledger. -/
def emptyState (K : Type) : MState K :=
  ⟨[], []⟩

/-- JavaScript `Map.prototype.set`: update the value in place when the key
is already present, otherwise append the new pair. -/
def mapSet (k : KeyV K) (v : String) (m : List (KeyV K × String)) :
    List (KeyV K × String) :=
  if m.any (fun e => decide (e.1 = k)) then
    m.map fun e => if e.1 = k then (e.1, v) else e
  else m ++ [(k, v)]

/-- JavaScript `Map.prototype.delete`: remove the pair with the given key. -/
def mapDelete (k : KeyV K) (m : List (KeyV K × String)) :
    List (KeyV K × String) :=
  m.filter fun e => !decide (e.1 = k)

/-- JavaScript `Map.prototype.get` as an `Option`. -/
def lookupMap (k : KeyV K) (m : List (KeyV K × String)) : Option String :=
  (m.find? fun e => decide (e.1 = k)).map Prod.snd

/-- Truthiness of a JavaScript array object.  Every array — the empty array
included — is truthy, which is why the guards `if (!generator.validate(v))`
inside `set` and `restore` can never fire. -/
def jsTruthyArr (_ : List String) : Bool :=
  true

/-- Embedding of `generateUIDFor`: reject `undefined`/`null`/`NaN` keys
before any mutation, otherwise draw a fresh identifier from the generator,
delete any existing association for the key and append the new pair.  The
outer `none` only models the generator's randomness supply running out. -/
def generateUIDFor (rands : List Uid.Quad) (key : KeyV K) (st : MState K) :
    Option (Option String × MState K) :=
  if validKey key then
    match Uid.generate rands st.ledger with
    | none => none
    | some (id, ledger') =>
      let m := if st.map.any (fun e => decide (e.1 = key)) then
        mapDelete key st.map else st.map
      some (some id, ⟨mapSet key id m, ledger'⟩)
  else some (none, st)

/-- Embedding of `getUIDFor`, which is `map.get(key) ?? null`: the `??`
coalescing turns the `undefined` of a missing key into `null`. -/
def getUIDFor (key : KeyV K) (st : MState K) : JSVal String :=
  match lookupMap key st.map with
  | some v => .val v
  | none => .null

/-- Embedding of `getKeyFor`: linear scan of the entries for the first one
whose stored identifier equals the argument; `undefined` when none is
found. -/
def getKeyFor (u : String) (st : MState K) : JSVal (KeyV K) :=
  match st.map.find? (fun e => decide (u = e.2)) with
  | some e => .val e.1
  | none => .undefined

/-- Embedding of `hasUIDFor`. -/
def hasUIDFor (key : KeyV K) (st : MState K) : Bool :=
  st.map.any fun e => decide (e.1 = key)

/-- Embedding of `hasKeyFor`: `[...map.values()].includes(uid)`. -/
def hasKeyFor (u : String) (st : MState K) : Bool :=
  (st.map.map Prod.snd).any fun v => decide (v = u)

/-- Embedding of `keys()`: snapshot of the keys in iteration order. -/
def keys (st : MState K) : List (KeyV K) :=
  st.map.map Prod.fst

/-- Embedding of `uids()`: snapshot of the values in iteration order. -/
def uids (st : MState K) : List String :=
  st.map.map Prod.snd

/-- Embedding of `entries()`: snapshot of the key/identifier pairs in
iteration order. -/
def entries (st : MState K) : List (KeyV K × String) :=
  st.map

/-- Embedding of `set`: lowercase the identifier; run the (never-firing)
array-truthiness validity guard; reject bad keys; reject identifiers already
among the map's values or the generator's ledger; then delete any existing
association for the key and append the new pair.  The ledger is never
written. -/
def set (entry : KeyV K × String) (st : MState K) : Bool × MState K :=
  let k := entry.1
  let v := Uid.lowerStr entry.2
  if !jsTruthyArr (Uid.validator (.vstr v)) then (false, st)
  else if !validKey k then (false, st)
  else if (st.map.map Prod.snd).any (fun x => decide (x = v)) ||
      st.ledger.any (fun x => decide (x = v)) then (false, st)
  else
    let m := if st.map.any (fun e => decide (e.1 = k)) then
      mapDelete k st.map else st.map
    (true, ⟨mapSet k v m, st.ledger⟩)

/-- Validation pass of `restore` (`$entries.every(...)` with the running
`bank` of identifiers already seen): an entry fails when its identifier
repeats, when the (never-firing) array-truthiness validity guard fires, or
when its key is `undefined`/`null`/`NaN`. -/
def checkEntries (bank : List String) : List (KeyV K × String) → Bool
  | [] => true
  | (k, v) :: rest =>
    if bank.any (fun x => decide (x = v)) then false
    else
      let bank' := bank ++ [v]
      if !jsTruthyArr (Uid.validator (.vstr v)) then false
      else if !validKey k then false
      else checkEntries bank' rest

/-- Embedding of `restore`: lowercase every identifier, run the validation
pass, and on success clear the map, call the generator's `setExisting` with
the batch identifiers (its boolean result is ignored by the source), and
insert every pair in order. -/
def restore (batch : List (KeyV K × String)) (st : MState K) :
    Bool × MState K :=
  let es := batch.map fun e => (e.1, Uid.lowerStr e.2)
  if !checkEntries [] es then (false, st)
  else
    let ledger' := (Uid.setExisting (es.map Prod.snd) st.ledger).2
    (true, ⟨es.foldl (fun m e => mapSet e.1 e.2 m) [], ledger'⟩)

/-- Embedding of `deleteUID`: find the first entry holding the identifier,
delete its key, report success. -/
def deleteUID (u : String) (st : MState K) : Bool × MState K :=
  match st.map.find? (fun e => decide (u = e.2)) with
  | none => (false, st)
  | some e => (true, ⟨mapDelete e.1 st.map, st.ledger⟩)

/-- Embedding of `deleteUIDFor`. -/
def deleteUIDFor (key : KeyV K) (st : MState K) : Bool × MState K :=
  if st.map.any (fun e => decide (e.1 = key)) then
    (true, ⟨mapDelete key st.map, st.ledger⟩)
  else (false, st)

/-- Embedding of `deleteAll`: clear the map, leave the ledger alone. -/
def deleteAll (st : MState K) : MState K :=
  ⟨[], st.ledger⟩

/-- Property of a stored entry that the validated operations maintain: the
key is a proper key and the identifier is already lowercase. -/
def GoodEntry (e : KeyV K × String) : Prop :=
  validKey e.1 = true ∧ Uid.lowerStr e.2 = e.2

/-- Structural invariant of the association map under the validated
operations: pairwise-distinct keys (it models a JavaScript `Map`), and every
entry is a `GoodEntry`.  Note that distinctness of the stored identifiers is
deliberately not part of this invariant — `set` does not record its
identifier in the generator's ledger, so a later `generate` can duplicate
it. -/
def Inv (st : MState K) : Prop :=
  (st.map.map Prod.fst).Nodup ∧ ∀ e ∈ st.map, GoodEntry e

/-- States a manager instance can reach through its public validated
operations, starting from construction. -/
inductive Reachable : MState K → Prop where
  | init : Reachable (emptyState K)
  | genStep (rands : List Uid.Quad) (key : KeyV K) (st : MState K)
      (r : Option String) (st' : MState K) : Reachable st →
      generateUIDFor rands key st = some (r, st') → Reachable st'
  | setStep (e : KeyV K × String) (st : MState K) : Reachable st →
      Reachable (set e st).2
  | restoreStep (batch : List (KeyV K × String)) (st : MState K) :
      Reachable st → Reachable (restore batch st).2
  | deleteUIDStep (u : String) (st : MState K) : Reachable st →
      Reachable (deleteUID u st).2
  | deleteUIDForStep (key : KeyV K) (st : MState K) : Reachable st →
      Reachable (deleteUIDFor key st).2
  | deleteAllStep (st : MState K) : Reachable st →
      Reachable (deleteAll st)

end UIDManager

example : Uid.reV4Test "aa97b177-9383-4934-8543-0f91a7a02836" = true := by decide
example : Uid.reV4Test "AA97B177-9383-4934-8543-0F91A7A02836" = true := by decide
example : Uid.reV4Test "aa97b177-9383-5934-8543-0f91a7a02836" = false := by decide
example : Uid.reV4Test "zzz" = false := by decide
example : Uid.formatUid 0 0 0 0 = "00000000-0000-4000-8000-000000000000" := by decide

namespace Uid

theorem hexChar_bounded_toNat :
    ∀ m, m < 123 → 65 ≤ m → (Char.ofNat (m + 32)).toNat = m + 32 := by
  decide

theorem lowerChar_toNat (ch : Char) :
    (lowerChar ch).toNat =
      if 65 ≤ ch.toNat ∧ ch.toNat ≤ 90 then ch.toNat + 32 else ch.toNat := by
  unfold lowerChar
  by_cases h : 65 ≤ ch.toNat ∧ ch.toNat ≤ 90
  · rw [if_pos h, if_pos h]
    exact hexChar_bounded_toNat ch.toNat (by omega) h.1
  · rw [if_neg h, if_neg h]

theorem lowerChar_idem (ch : Char) : lowerChar (lowerChar ch) = lowerChar ch := by
  have h := lowerChar_toNat ch
  unfold lowerChar
  by_cases hc : 65 ≤ (lowerChar ch).toNat ∧ (lowerChar ch).toNat ≤ 90
  · rw [lowerChar_toNat] at hc
    exfalso
    by_cases h65 : 65 ≤ ch.toNat ∧ ch.toNat ≤ 90
    · rw [if_pos h65] at hc; omega
    · rw [if_neg h65] at hc
      exact h65 hc
  · rw [if_neg]
    intro hcon
    exact hc (by unfold lowerChar; exact hcon)

theorem lowerStr_idem (s : String) : lowerStr (lowerStr s) = lowerStr s := by
  unfold lowerStr
  simp only [List.map_map]
  congr 1
  have h : ∀ l : List Char, l.map (lowerChar ∘ lowerChar) = l.map lowerChar := by
    intro l
    induction l with
    | nil => rfl
    | cons c cs ih => simp [ih, lowerChar_idem, Function.comp]
  exact h s.data

theorem lowerStr_eq_self_of (s : String)
    (h : s.data.map lowerChar = s.data) : lowerStr s = s := by
  unfold lowerStr
  rw [h]

theorem lookup_data (b : Nat) :
    (lookup b).data = [hexChar (b / 16), hexChar (b % 16)] := by
  unfold lookup jsToString16
  by_cases h : b < 16
  · rw [if_pos h, if_pos h]
    have h1 : b / 16 = 0 := by omega
    have h2 : b % 16 = b := by omega
    rw [h1, h2]
    rfl
  · rw [if_neg h, if_neg h]
    rfl

theorem land_15 (x : Nat) : x &&& 15 = x % 16 := by
  have h := Nat.and_pow_two_sub_one_eq_mod x 4
  norm_num at h
  exact h

theorem land_63 (x : Nat) : x &&& 63 = x % 64 := by
  have h := Nat.and_pow_two_sub_one_eq_mod x 6
  norm_num at h
  exact h

theorem lor_64 (n : Nat) : n % 16 ||| 64 = 64 + n % 16 := by
  have h : n % 16 < 16 := by omega
  revert h
  generalize n % 16 = m
  intro h
  exact (by decide : ∀ m, m < 16 → m ||| 64 = 64 + m) m h

theorem lor_128 (n : Nat) : n % 64 ||| 128 = 128 + n % 64 := by
  have h : n % 64 < 64 := by omega
  revert h
  generalize n % 64 = m
  intro h
  exact (by decide : ∀ m, m < 64 → m ||| 128 = 128 + m) m h

theorem ver_div (n : Nat) : (64 + n % 16) / 16 = 4 := by omega

theorem ver_mod (n : Nat) : (64 + n % 16) % 16 = n % 16 := by omega

theorem var_div (n : Nat) : (128 + n % 64) / 16 = 8 + n % 64 / 16 := by omega

theorem var_mod (n : Nat) : (128 + n % 64) % 16 = n % 16 := by omega

theorem hexCI_hexChar_mod16 (n : Nat) : hexCI (hexChar (n % 16)) = true := by
  have h : n % 16 < 16 := by omega
  revert h
  generalize n % 16 = m
  intro h
  exact (by decide : ∀ m, m < 16 → hexCI (hexChar m) = true) m h

theorem hexCI_byte_hi (x s : Nat) : hexCI (hexChar (byte x s / 16)) = true := by
  have h : byte x s / 16 < 16 := by unfold byte; omega
  revert h
  generalize byte x s / 16 = m
  intro h
  exact (by decide : ∀ m, m < 16 → hexCI (hexChar m) = true) m h

theorem hexCI_byte_lo (x s : Nat) : hexCI (hexChar (byte x s % 16)) = true :=
  hexCI_hexChar_mod16 _

theorem variantCI_var (n : Nat) :
    variantCI (hexChar (8 + n % 64 / 16)) = true := by
  have h : n % 64 / 16 < 4 := by omega
  revert h
  generalize n % 64 / 16 = m
  intro h
  exact (by decide : ∀ m, m < 4 → variantCI (hexChar (8 + m)) = true) m h

theorem version_char_toNat : (hexChar 4).toNat = 52 := by decide

theorem hyphen_char_toNat : ('-').toNat = 45 := by decide

theorem hyphen_data : ("-" : String).data = ['-'] := rfl

theorem reV4Test_formatUid (a b c d : Nat) :
    reV4Test (formatUid a b c d) = true := by
  unfold reV4Test formatUid
  simp only [land_15, lor_64, land_63, lor_128]
  simp only [String.data_append, hyphen_data, lookup_data, List.cons_append,
    List.nil_append, List.append_assoc]
  simp only [ver_div, ver_mod, var_div, var_mod]
  simp only [reV4TestChars, takeHex, expectHyphen, expectVersion,
    expectVariant, hexCI_byte_hi, hexCI_byte_lo, hexCI_hexChar_mod16,
    variantCI_var, version_char_toNat, hyphen_char_toNat, Option.some_bind,
    if_true, ite_true, eq_self_iff_true]

theorem lowerChar_hexChar_mod16 (n : Nat) :
    lowerChar (hexChar (n % 16)) = hexChar (n % 16) := by
  have h : n % 16 < 16 := by omega
  revert h
  generalize n % 16 = m
  intro h
  exact (by decide : ∀ m, m < 16 → lowerChar (hexChar m) = hexChar m) m h

theorem lowerChar_byte_hi (x s : Nat) :
    lowerChar (hexChar (byte x s / 16)) = hexChar (byte x s / 16) := by
  have h : byte x s / 16 < 16 := by unfold byte; omega
  revert h
  generalize byte x s / 16 = m
  intro h
  exact (by decide : ∀ m, m < 16 → lowerChar (hexChar m) = hexChar m) m h

theorem lowerChar_var (n : Nat) :
    lowerChar (hexChar (8 + n % 64 / 16)) = hexChar (8 + n % 64 / 16) := by
  have h : n % 64 / 16 < 4 := by omega
  revert h
  generalize n % 64 / 16 = m
  intro h
  exact (by decide : ∀ m, m < 4 → lowerChar (hexChar (8 + m)) = hexChar (8 + m))
    m h

theorem lowerChar_four : lowerChar (hexChar 4) = hexChar 4 := by decide

theorem lowerChar_hyphen : lowerChar '-' = '-' := by decide

theorem lowerStr_formatUid (a b c d : Nat) :
    lowerStr (formatUid a b c d) = formatUid a b c d := by
  apply lowerStr_eq_self_of
  unfold formatUid
  simp only [land_15, lor_64, land_63, lor_128]
  simp only [String.data_append, hyphen_data, lookup_data, List.cons_append,
    List.nil_append, List.append_assoc]
  simp only [ver_div, ver_mod, var_div, var_mod]
  simp only [List.map_cons, List.map_nil, lowerChar_hexChar_mod16,
    lowerChar_byte_hi, lowerChar_var, lowerChar_four, lowerChar_hyphen]

theorem genScan_some (rands : List Quad) (g : List String) (id : String)
    (h : genScan rands g = some id) :
    id ∉ g ∧ reV4Test id = true ∧ lowerStr id = id := by
  induction rands with
  | nil => exact absurd h (by simp [genScan])
  | cons q rest ih =>
    obtain ⟨a, b, c, d⟩ := q
    unfold genScan at h
    by_cases hm : formatUid a b c d ∈ g
    · rw [if_pos hm] at h
      exact ih h
    · rw [if_neg hm] at h
      obtain rfl : formatUid a b c d = id := by injection h
      exact ⟨hm, reV4Test_formatUid a b c d, lowerStr_formatUid a b c d⟩

theorem generate_some (rands : List Quad) (g : List String)
    (id : String) (g' : List String)
    (h : generate rands g = some (id, g')) :
    id ∉ g ∧ g' = g ++ [id] ∧ reV4Test id = true ∧ lowerStr id = id := by
  unfold generate at h
  split at h
  · rename_i i hs
    injection h with h1
    injection h1 with h2 h3
    subst h3
    cases h2
    obtain ⟨hf, hv, hl⟩ := genScan_some rands g id hs
    exact ⟨hf, rfl, hv, hl⟩
  · exact absurd h (by simp)

theorem hexCI_lowerChar (ch : Char) : hexCI (lowerChar ch) = hexCI ch := by
  unfold hexCI
  simp only [decide_eq_decide, lowerChar_toNat]
  split <;> omega

theorem variantCI_lowerChar (ch : Char) :
    variantCI (lowerChar ch) = variantCI ch := by
  unfold variantCI
  simp only [decide_eq_decide, lowerChar_toNat]
  split <;> omega

theorem takeHex_map_lower (n : Nat) (cs : List Char) :
    takeHex n (cs.map lowerChar) = (takeHex n cs).map (List.map lowerChar) := by
  induction n generalizing cs with
  | zero => rfl
  | succ n ih =>
    cases cs with
    | nil => rfl
    | cons ch rest =>
      show takeHex (n + 1) (lowerChar ch :: rest.map lowerChar) = _
      unfold takeHex
      rw [hexCI_lowerChar]
      by_cases h : hexCI ch
      · simp [h, ih]
      · simp [h]

theorem expectHyphen_map_lower (cs : List Char) :
    expectHyphen (cs.map lowerChar) =
      (expectHyphen cs).map (List.map lowerChar) := by
  cases cs with
  | nil => rfl
  | cons ch rest =>
    have hiff : ((lowerChar ch).toNat = 45) ↔ (ch.toNat = 45) := by
      rw [lowerChar_toNat]; split <;> omega
    show expectHyphen (lowerChar ch :: rest.map lowerChar) = _
    unfold expectHyphen
    by_cases h : ch.toNat = 45
    · simp [hiff.mpr h, h]
    · have h' : ¬(lowerChar ch).toNat = 45 := fun hc => h (hiff.mp hc)
      simp [h', h]

theorem expectVersion_map_lower (cs : List Char) :
    expectVersion (cs.map lowerChar) =
      (expectVersion cs).map (List.map lowerChar) := by
  cases cs with
  | nil => rfl
  | cons ch rest =>
    have hiff : ((lowerChar ch).toNat = 52) ↔ (ch.toNat = 52) := by
      rw [lowerChar_toNat]; split <;> omega
    show expectVersion (lowerChar ch :: rest.map lowerChar) = _
    unfold expectVersion
    by_cases h : ch.toNat = 52
    · simp [hiff.mpr h, h]
    · have h' : ¬(lowerChar ch).toNat = 52 := fun hc => h (hiff.mp hc)
      simp [h', h]

theorem expectVariant_map_lower (cs : List Char) :
    expectVariant (cs.map lowerChar) =
      (expectVariant cs).map (List.map lowerChar) := by
  cases cs with
  | nil => rfl
  | cons ch rest =>
    show expectVariant (lowerChar ch :: rest.map lowerChar) = _
    have hv := variantCI_lowerChar ch
    by_cases h : variantCI ch
    · simp [expectVariant, hv, h]
    · simp [expectVariant, hv, h]

theorem reV4TestChars_map_lower (cs : List Char) :
    reV4TestChars (cs.map lowerChar) = reV4TestChars cs := by
  unfold reV4TestChars
  rw [takeHex_map_lower]
  cases takeHex 8 cs with
  | none => rfl
  | some c1 =>
  simp only [Option.map_some', Option.some_bind]
  rw [expectHyphen_map_lower]
  cases expectHyphen c1 with
  | none => rfl
  | some c2 =>
  simp only [Option.map_some', Option.some_bind]
  rw [takeHex_map_lower]
  cases takeHex 4 c2 with
  | none => rfl
  | some c3 =>
  simp only [Option.map_some', Option.some_bind]
  rw [expectHyphen_map_lower]
  cases expectHyphen c3 with
  | none => rfl
  | some c4 =>
  simp only [Option.map_some', Option.some_bind]
  rw [expectVersion_map_lower]
  cases expectVersion c4 with
  | none => rfl
  | some c5 =>
  simp only [Option.map_some', Option.some_bind]
  rw [takeHex_map_lower]
  cases takeHex 3 c5 with
  | none => rfl
  | some c6 =>
  simp only [Option.map_some', Option.some_bind]
  rw [expectHyphen_map_lower]
  cases expectHyphen c6 with
  | none => rfl
  | some c7 =>
  simp only [Option.map_some', Option.some_bind]
  rw [expectVariant_map_lower]
  cases expectVariant c7 with
  | none => rfl
  | some c8 =>
  simp only [Option.map_some', Option.some_bind]
  rw [takeHex_map_lower]
  cases takeHex 3 c8 with
  | none => rfl
  | some c9 =>
  simp only [Option.map_some', Option.some_bind]
  rw [expectHyphen_map_lower]
  cases expectHyphen c9 with
  | none => rfl
  | some c10 =>
  simp only [Option.map_some', Option.some_bind]
  rw [takeHex_map_lower]
  cases takeHex 12 c10 with
  | none => rfl
  | some c11 =>
  simp only [Option.map_some', Option.some_bind]
  cases c11 with
  | nil => rfl
  | cons ch rest => rfl

theorem reV4Test_lowerStr (s : String) :
    reV4Test (lowerStr s) = reV4Test s := by
  unfold reV4Test lowerStr
  exact reV4TestChars_map_lower s.data

theorem reV4Test_empty : reV4Test "" = false := rfl

theorem genMany_spec (rss : List (List Quad)) (g : List String)
    (ids g'' : List String) (h : genMany rss g = some (ids, g'')) :
    g'' = g ++ ids ∧ ids.Nodup ∧ ∀ i ∈ ids, i ∉ g := by
  induction rss generalizing g ids g'' with
  | nil =>
    unfold genMany at h
    injection h with h1
    injection h1 with h2 h3
    subst h2
    subst h3
    simp
  | cons r rs ih =>
    unfold genMany at h
    split at h
    · exact absurd h (by simp)
    · rename_i id g1 hg
      split at h
      · exact absurd h (by simp)
      · rename_i ids' g2 hm
        injection h with h1
        injection h1 with hids hg2
        subst hids
        subst hg2
        obtain ⟨hfresh, rfl, _, _⟩ := generate_some r g id g1 hg
        obtain ⟨rfl, hnodup, hfr⟩ := ih (g ++ [id]) ids' _ hm
        refine ⟨by simp, ?_, ?_⟩
        · refine List.nodup_cons.mpr ⟨fun hmem => ?_, hnodup⟩
          have := hfr id hmem
          simp at this
        · intro i hi
          rcases List.mem_cons.mp hi with rfl | hi'
          · exact hfresh
          · intro hig
            exact hfr i hi' (by simp [hig])

theorem truthy_and_test (s : String) :
    (jsTruthy s && reV4Test s) = reV4Test s := by
  unfold jsTruthy
  cases hd : s.data with
  | nil =>
    have he : reV4Test s = false := by
      unfold reV4Test
      rw [hd]
      rfl
    simp [hd, he]
  | cons ch rest => simp [hd]

theorem filterMap_pred_eq (l : List (Option String)) :
    (l.filterMap fun o =>
      match o with
      | some s => if jsTruthy s && reV4Test s then some s else none
      | none => none) = (l.filterMap fun o => o).filter reV4Test := by
  induction l with
  | nil => rfl
  | cons o rest ih =>
    cases o with
    | none => simpa [List.filterMap_cons] using ih
    | some s =>
      simp only [truthy_and_test] at ih ⊢
      simp only [List.filterMap_cons]
      by_cases hv : reV4Test s
      · simp [hv, List.filter_cons, ih]
      · simp [hv, List.filter_cons, ih]

theorem validator_map_some (l : List String) :
    validator (.varr (l.map some)) = l.filter reV4Test := by
  calc validator (.varr (l.map some))
      = ((l.map some).filterMap fun o => o).filter reV4Test :=
        filterMap_pred_eq (l.map some)
    _ = l.filter reV4Test := by
        rw [List.filterMap_map]
        show (List.filterMap some l).filter reV4Test = _
        rw [List.filterMap_some]

/-- C2: a successful `generate` returns an identifier that is not in the
ledger at call time and appends exactly that identifier to the ledger, and a
sequence of successful `generate` calls on one generator instance yields
pairwise-distinct identifiers. -/
theorem generate_fresh_and_distinct :
    (∀ (rands : List Quad) (g : List String) (id : String) (g' : List String),
      generate rands g = some (id, g') → id ∉ g ∧ g' = g ++ [id]) ∧
    (∀ (rss : List (List Quad)) (g ids g'' : List String),
      genMany rss g = some (ids, g'') → ids.Nodup) :=
  ⟨fun rands g id g' h =>
    ⟨(generate_some rands g id g' h).1, (generate_some rands g id g' h).2.1⟩,
   fun rss g ids g'' h => (genMany_spec rss g ids g'' h).2.1⟩

/-- Witness for `generate_fresh_and_distinct` at a concrete run. -/
theorem generate_fresh_and_distinct_witness :
    formatUid 0 0 0 0 ∉ ([] : List String) ∧
      [formatUid 0 0 0 0] = [] ++ [formatUid 0 0 0 0] :=
  generate_fresh_and_distinct.1 [(0, 0, 0, 0)] [] (formatUid 0 0 0 0)
    [formatUid 0 0 0 0] rfl

/-- C3: every identifier the generator can return — `formatUid` of any four
32-bit unsigned random values, and hence the identifier of any successful
`generate` call — matches the version-4 structural pattern, and lowercasing
it is the identity (all its hexadecimal characters are already lowercase). -/
theorem generated_identifiers_wellformed :
    (∀ a b c d : Nat, reV4Test (formatUid a b c d) = true ∧
      lowerStr (formatUid a b c d) = formatUid a b c d) ∧
    (∀ (rands : List Quad) (g : List String) (id : String) (g' : List String),
      generate rands g = some (id, g') →
      reV4Test id = true ∧ lowerStr id = id) :=
  ⟨fun a b c d => ⟨reV4Test_formatUid a b c d, lowerStr_formatUid a b c d⟩,
   fun rands g id g' h =>
    ⟨(generate_some rands g id g' h).2.2.1, (generate_some rands g id g' h).2.2.2⟩⟩

/-- Witness for `generated_identifiers_wellformed` at a concrete run. -/
theorem generated_identifiers_wellformed_witness :
    reV4Test (formatUid 0 0 0 0) = true ∧
      lowerStr (formatUid 0 0 0 0) = formatUid 0 0 0 0 :=
  generated_identifiers_wellformed.2 [(0, 0, 0, 0)] [] (formatUid 0 0 0 0)
    [formatUid 0 0 0 0] rfl

/-- C4 (amended): `setExisting` is all-or-nothing — when every candidate
matches the version-4 pattern the ledger is replaced by the candidates
exactly as given (original casing preserved, no lowercasing) and `true` is
returned; when any candidate fails the pattern the ledger is untouched and
`false` is returned. -/
theorem setExisting_all_or_nothing (ids g : List String) :
    ((∀ s ∈ ids, reV4Test s = true) → setExisting ids g = (true, ids)) ∧
    ((∃ s ∈ ids, reV4Test s = false) → setExisting ids g = (false, g)) := by
  constructor
  · intro hall
    unfold setExisting
    rw [validator_map_some]
    have hfilter : ids.filter reV4Test = ids :=
      List.filter_eq_self.mpr hall
    rw [hfilter]
    simp
  · rintro ⟨s, hs, hfalse⟩
    unfold setExisting
    rw [validator_map_some]
    have hne : (ids.filter reV4Test).length ≠ ids.length := by
      intro heq
      have := List.filter_length_eq_length.mp heq s hs
      rw [hfalse] at this
      exact Bool.false_ne_true this
    rw [if_neg hne]

/-- Witness for `setExisting_all_or_nothing` at concrete inputs. -/
theorem setExisting_all_or_nothing_witness :
    setExisting ["aa97b177-9383-4934-8543-0f91a7a02836"] [] =
      (true, ["aa97b177-9383-4934-8543-0f91a7a02836"]) ∧
    setExisting ["zzz"] ["x"] = (false, ["x"]) :=
  ⟨(setExisting_all_or_nothing _ _).1 (by decide),
   (setExisting_all_or_nothing _ _).2 ⟨"zzz", by decide, by decide⟩⟩

/-- C4 counterexample to the claim as stated: an all-uppercase valid
candidate is accepted, but the ledger receives it with its original casing
rather than the lowercased (canonicalized) form the claim announces. -/
theorem setExisting_preserves_casing :
    lowerStr "AA97B177-9383-4934-8543-0F91A7A02836" =
      "aa97b177-9383-4934-8543-0f91a7a02836" ∧
    (setExisting ["AA97B177-9383-4934-8543-0F91A7A02836"] []).1 = true ∧
    (setExisting ["AA97B177-9383-4934-8543-0F91A7A02836"] []).2 ≠
      ["aa97b177-9383-4934-8543-0f91a7a02836"] := by
  refine ⟨by decide, by decide, by decide⟩

/-- C8: `validator` is a pure filter — a null input yields the empty
sequence, a single string behaves exactly as its one-element sequence, the
elements present are filtered by the version-4 test (dropping nulls and
non-matches) with order and casing preserved, and the test itself is
case-insensitive: lowercasing an input never changes the verdict. -/
theorem validate_pure_filter :
    (validator .vnull = []) ∧
    (∀ s, validator (.vstr s) = validator (.varr [some s])) ∧
    (∀ l, validator (.varr l) = (l.filterMap fun o => o).filter reV4Test) ∧
    (∀ s, reV4Test (lowerStr s) = reV4Test s) := by
  refine ⟨rfl, ?_, ?_, reV4Test_lowerStr⟩
  · intro s
    unfold validator
    by_cases ht : jsTruthy s
    · by_cases hv : reV4Test s <;>
        simp [ht, hv, List.filter_cons, List.filterMap_cons]
    · simp [ht, List.filterMap_cons,
        show jsTruthy s = false from Bool.not_eq_true _ |>.mp ht]
  · intro l
    exact filterMap_pred_eq l

end Uid

namespace UIDManager

variable {K : Type} [DecidableEq K]

theorem any_key_eq_false_iff (k : KeyV K) (m : List (KeyV K × String)) :
    m.any (fun e => decide (e.1 = k)) = false ↔ ∀ e ∈ m, e.1 ≠ k := by
  rw [List.any_eq_false]
  constructor
  · intro h e he
    have := h e he
    simpa using this
  · intro h e he
    simpa using h e he

theorem mapDelete_not_key (k : KeyV K) (m : List (KeyV K × String)) :
    (mapDelete k m).any (fun e => decide (e.1 = k)) = false := by
  rw [any_key_eq_false_iff]
  intro e he
  unfold mapDelete at he
  have := List.of_mem_filter he
  simpa using this

theorem mapDelete_mem (k : KeyV K) (m : List (KeyV K × String))
    (e : KeyV K × String) (he : e ∈ mapDelete k m) : e ∈ m :=
  List.mem_of_mem_filter he

theorem mapSet_absent (k : KeyV K) (v : String) (m : List (KeyV K × String))
    (h : m.any (fun e => decide (e.1 = k)) = false) :
    mapSet k v m = m ++ [(k, v)] := by
  unfold mapSet
  rw [h]
  simp

theorem lookupMap_append_last (k : KeyV K) (v : String)
    (m : List (KeyV K × String))
    (h : m.any (fun e => decide (e.1 = k)) = false) :
    lookupMap k (m ++ [(k, v)]) = some v := by
  induction m with
  | nil =>
    unfold lookupMap
    simp [List.find?]
  | cons e rest ih =>
    have h1 : (decide (e.1 = k)) = false := by
      rw [List.any_cons] at h
      rcases Bool.or_eq_false_iff.mp h with ⟨h1, _⟩
      exact h1
    have h2 : rest.any (fun e => decide (e.1 = k)) = false := by
      rw [List.any_cons] at h
      rcases Bool.or_eq_false_iff.mp h with ⟨_, h2⟩
      exact h2
    unfold lookupMap at ih ⊢
    rw [List.cons_append, List.find?_cons_of_neg _ (by simpa using h1)]
    exact ih h2

theorem lookupMap_after_set (k : KeyV K) (v : String)
    (m : List (KeyV K × String)) :
    lookupMap k (mapSet k v
      (if m.any (fun e => decide (e.1 = k)) then mapDelete k m else m)) =
      some v := by
  by_cases hm : m.any (fun e => decide (e.1 = k)) = true
  · rw [if_pos hm, mapSet_absent _ _ _ (mapDelete_not_key k m),
      lookupMap_append_last _ _ _ (mapDelete_not_key k m)]
  · have hm' : m.any (fun e => decide (e.1 = k)) = false :=
      Bool.not_eq_true _ |>.mp hm
    rw [if_neg hm, mapSet_absent _ _ _ hm', lookupMap_append_last _ _ _ hm']

end UIDManager

namespace UIDManager

variable {K : Type} [DecidableEq K]

/-- C1 (code bug): `set` and `restore` guard identifier validity with
`if (!generator.validate(v))`, but `validate` returns an array and every
JavaScript array — the empty one included — is truthy, so the guard never
fires.  A structurally invalid identifier is therefore accepted: `set`
inserts it and returns `true`, and `restore` replaces the table with it and
returns `true` while the ledger silently keeps its old value because the
failure of `setExisting` is ignored.  The claim (and the source's own
documentation) demands rejection with `false` and an unchanged state. -/
theorem set_restore_accept_invalid_id :
    Uid.reV4Test "zzz" = false ∧
    set (KeyV.val "k", "zzz") (emptyState String) =
      (true, ⟨[(KeyV.val "k", "zzz")], []⟩) ∧
    restore [(KeyV.val "k", "zzz")] (emptyState String) =
      (true, ⟨[(KeyV.val "k", "zzz")], []⟩) :=
  ⟨by decide, by decide, by decide⟩

/-- C7: `generateUIDFor` rejects an `undefined`, `null` or `NaN` key before
any mutation: it returns the null sentinel with the state — association
table and ledger alike — unchanged, and consumes no randomness. -/
theorem generateUIDFor_rejects_invalid_keys (rands : List Uid.Quad)
    (key : KeyV K) (st : MState K) (h : validKey key = false) :
    generateUIDFor rands key st = some (none, st) := by
  unfold generateUIDFor
  rw [h]
  simp

/-- Witness for `generateUIDFor_rejects_invalid_keys` on each invalid key. -/
theorem generateUIDFor_rejects_invalid_keys_witness :
    generateUIDFor [] (KeyV.undefined : KeyV String) (emptyState String) =
      some (none, emptyState String) ∧
    generateUIDFor [] (KeyV.null : KeyV String) (emptyState String) =
      some (none, emptyState String) ∧
    generateUIDFor [] (KeyV.nan : KeyV String) (emptyState String) =
      some (none, emptyState String) :=
  ⟨generateUIDFor_rejects_invalid_keys [] KeyV.undefined (emptyState String) rfl,
   generateUIDFor_rejects_invalid_keys [] KeyV.null (emptyState String) rfl,
   generateUIDFor_rejects_invalid_keys [] KeyV.nan (emptyState String) rfl⟩

/-- C10: when a key has no association, `getUIDFor` — whose body is
`map.get(key) ?? null` — returns the null sentinel, not the `undefined`
value its declared result type `string | undefined` announces, so the
result is indistinguishable by value from the manager's error sentinel. -/
theorem getUIDFor_missing_returns_null (key : KeyV K) (st : MState K)
    (h : lookupMap key st.map = none) :
    getUIDFor key st = JSVal.null ∧
      (JSVal.null : JSVal String) ≠ JSVal.undefined := by
  constructor
  · unfold getUIDFor
    rw [h]
  · decide

/-- Witness for `getUIDFor_missing_returns_null` on a fresh manager. -/
theorem getUIDFor_missing_returns_null_witness :
    getUIDFor (KeyV.val "a") (emptyState String) = JSVal.null ∧
      (JSVal.null : JSVal String) ≠ JSVal.undefined :=
  getUIDFor_missing_returns_null (KeyV.val "a") (emptyState String) rfl

/-- C9: `set` never writes the generator's ledger — in every branch the
ledger after `set` is the ledger before; a successful `set` moreover implies
the stored identifier was absent from the ledger, so a later `generate`
whose randomness formats to that very identifier still returns it. -/
theorem set_never_touches_ledger :
    (∀ (e : KeyV K × String) (st : MState K),
      ((set e st).2).ledger = st.ledger) ∧
    (∀ (e : KeyV K × String) (st : MState K), (set e st).1 = true →
      Uid.lowerStr e.2 ∉ st.ledger) ∧
    (∀ (e : KeyV K × String) (st : MState K) (a b c d : Nat),
      (set e st).1 = true →
      Uid.formatUid a b c d = Uid.lowerStr e.2 →
      Uid.generate [(a, b, c, d)] ((set e st).2).ledger =
        some (Uid.lowerStr e.2, st.ledger ++ [Uid.lowerStr e.2])) := by
  have hledger : ∀ (e : KeyV K × String) (st : MState K),
      ((set e st).2).ledger = st.ledger := by
    intro e st
    simp only [set]
    split
    · rfl
    · split
      · rfl
      · split
        · rfl
        · rfl
  have hnotmem : ∀ (e : KeyV K × String) (st : MState K),
      (set e st).1 = true → Uid.lowerStr e.2 ∉ st.ledger := by
    intro e st h hmem
    simp only [set] at h
    split at h
    · exact Bool.false_ne_true h
    · split at h
      · exact Bool.false_ne_true h
      · split at h
        · exact Bool.false_ne_true h
        · rename_i hcol
          apply hcol
          rw [Bool.or_eq_true]
          right
          rw [List.any_eq_true]
          exact ⟨Uid.lowerStr e.2, hmem, by simp⟩
  refine ⟨hledger, hnotmem, ?_⟩
  intro e st a b c d h hfmt
  rw [hledger e st]
  unfold Uid.generate Uid.genScan
  rw [hfmt]
  have hnm := hnotmem e st h
  rw [if_neg hnm]

/-- Witness for `set_never_touches_ledger` at a concrete successful `set`. -/
theorem set_never_touches_ledger_witness :
    Uid.lowerStr "00000000-0000-4000-8000-000000000000" ∉ ([] : List String) ∧
    Uid.generate [(0, 0, 0, 0)]
        ((set ((KeyV.val "k" : KeyV String),
          "00000000-0000-4000-8000-000000000000") (emptyState String)).2).ledger =
      some (Uid.lowerStr "00000000-0000-4000-8000-000000000000",
        [] ++ [Uid.lowerStr "00000000-0000-4000-8000-000000000000"]) :=
  ⟨set_never_touches_ledger.2.1
    ((KeyV.val "k" : KeyV String), "00000000-0000-4000-8000-000000000000")
    (emptyState String) (by decide),
   set_never_touches_ledger.2.2
    ((KeyV.val "k" : KeyV String), "00000000-0000-4000-8000-000000000000")
    (emptyState String) 0 0 0 0 (by decide) (by decide)⟩

theorem generateUIDFor_some_id (rands : List Uid.Quad) (key : KeyV K)
    (st : MState K) (id : String) (st' : MState K)
    (h : generateUIDFor rands key st = some (some id, st')) :
    validKey key = true ∧
    id ∉ st.ledger ∧
    st'.ledger = st.ledger ++ [id] ∧
    st'.map = mapSet key id
      (if st.map.any (fun e => decide (e.1 = key)) then mapDelete key st.map
        else st.map) := by
  simp only [generateUIDFor] at h
  by_cases hk : validKey key = true
  · rw [if_pos hk] at h
    split at h
    · exact absurd h (by simp)
    · rename_i i ledger' hg
      injection h with h1
      injection h1 with h2 h3
      injection h2 with h4
      cases h4
      subst h3
      obtain ⟨hfresh, hlg, _, _⟩ := Uid.generate_some rands st.ledger id ledger' hg
      subst hlg
      exact ⟨hk, hfresh, rfl, rfl⟩
  · rw [if_neg hk] at h
    exfalso
    injection h with h1
    injection h1 with h2 h3
    exact Option.noConfusion h2

/-- C6: two successive successful `generateUIDFor` calls for the same key
return different identifiers (the second is fresh with respect to a ledger
that already holds the first), and afterwards `getUIDFor` returns exactly
the second one — the earlier association was removed and is never reused. -/
theorem generateUIDFor_remaps_key (r1 r2 : List Uid.Quad) (key : KeyV K)
    (st st1 st2 : MState K) (id1 id2 : String)
    (h1 : generateUIDFor r1 key st = some (some id1, st1))
    (h2 : generateUIDFor r2 key st1 = some (some id2, st2)) :
    id1 ≠ id2 ∧ getUIDFor key st2 = JSVal.val id2 := by
  obtain ⟨hk, hfresh1, hlg1, hmap1⟩ := generateUIDFor_some_id r1 key st id1 st1 h1
  obtain ⟨_, hfresh2, hlg2, hmap2⟩ := generateUIDFor_some_id r2 key st1 id2 st2 h2
  constructor
  · intro heq
    exact hfresh2 (by rw [hlg1, ← heq]; simp)
  · have hl := lookupMap_after_set key id2 st1.map
    unfold getUIDFor
    rw [hmap2, hl]

/-- Witness for `generateUIDFor_remaps_key` at a concrete two-call run. -/
theorem generateUIDFor_remaps_key_witness :
    Uid.formatUid 0 0 0 0 ≠ Uid.formatUid 1 0 0 0 ∧
    getUIDFor (KeyV.val "a")
        (⟨[(KeyV.val "a", Uid.formatUid 1 0 0 0)],
          [Uid.formatUid 0 0 0 0, Uid.formatUid 1 0 0 0]⟩ : MState String) =
      JSVal.val (Uid.formatUid 1 0 0 0) :=
  generateUIDFor_remaps_key [(0, 0, 0, 0)] [(1, 0, 0, 0)] (KeyV.val "a")
    (emptyState String)
    ⟨[(KeyV.val "a", Uid.formatUid 0 0 0 0)], [Uid.formatUid 0 0 0 0]⟩
    ⟨[(KeyV.val "a", Uid.formatUid 1 0 0 0)],
      [Uid.formatUid 0 0 0 0, Uid.formatUid 1 0 0 0]⟩
    (Uid.formatUid 0 0 0 0) (Uid.formatUid 1 0 0 0) (by decide) (by decide)

theorem any_str_eq_false_iff (v : String) (l : List String) :
    (l.any fun x => decide (x = v)) = false ↔ v ∉ l := by
  rw [List.any_eq_false]
  constructor
  · intro h hv
    have := h v hv
    simp at this
  · intro h x hx
    simp only [decide_eq_true_eq]
    intro hxv
    exact h (hxv ▸ hx)

theorem checkEntries_complete (es : List (KeyV K × String)) :
    ∀ bank : List String,
    (∀ e ∈ es, validKey e.1 = true) →
    (es.map Prod.snd).Nodup →
    (∀ v ∈ es.map Prod.snd, v ∉ bank) →
    checkEntries bank es = true := by
  induction es with
  | nil => intro bank _ _ _; rfl
  | cons e rest ih =>
    intro bank hval hnodup hbank
    obtain ⟨k, v⟩ := e
    simp only [List.map_cons] at hnodup
    have hvb : (bank.any fun x => decide (x = v)) = false :=
      (any_str_eq_false_iff v bank).mpr (hbank v (by simp))
    have hk : validKey k = true := hval (k, v) (by simp)
    unfold checkEntries
    rw [hvb, hk]
    simp only [jsTruthyArr, Bool.not_true, Bool.false_eq_true, if_false,
      ite_false]
    apply ih (bank ++ [v])
    · intro e he
      exact hval e (by simp [he])
    · exact (List.nodup_cons.mp hnodup).2
    · intro v' hv'
      rw [List.mem_append]
      rintro (hb | hs)
      · exact hbank v' (by simp [hv']) hb
      · rw [List.mem_singleton] at hs
        subst hs
        exact (List.nodup_cons.mp hnodup).1 hv'

theorem checkEntries_sound (es : List (KeyV K × String)) :
    ∀ bank : List String, checkEntries bank es = true →
    ∀ e ∈ es, validKey e.1 = true := by
  induction es with
  | nil => intro bank _ e he; exact absurd he (List.not_mem_nil e)
  | cons e0 rest ih =>
    intro bank h e he
    obtain ⟨k, v⟩ := e0
    simp only [checkEntries, jsTruthyArr, Bool.not_true, Bool.false_eq_true,
      if_false] at h
    split at h
    · exact absurd h (by simp)
    · split at h
      · exact absurd h (by simp)
      · rename_i hnb hkv
        rcases List.mem_cons.mp he with rfl | he'
        · simpa using hkv
        · exact ih (bank ++ [v]) h e he'

theorem map_lower_self (m : List (KeyV K × String))
    (h : ∀ e ∈ m, Uid.lowerStr e.2 = e.2) :
    m.map (fun e => (e.1, Uid.lowerStr e.2)) = m := by
  induction m with
  | nil => rfl
  | cons e rest ih =>
    simp only [List.map_cons]
    rw [h e (by simp), ih fun e' he' => h e' (by simp [he'])]

theorem mapSet_keys_of_mem (k : KeyV K) (v : String)
    (m : List (KeyV K × String))
    (h : m.any (fun e => decide (e.1 = k)) = true) :
    (mapSet k v m).map Prod.fst = m.map Prod.fst := by
  unfold mapSet
  rw [h]
  simp only [if_true, List.map_map]
  apply List.map_congr_left
  intro e _
  by_cases he : e.1 = k
  · simp [he]
  · simp [he]

theorem mapSet_good (k : KeyV K) (v : String) (m : List (KeyV K × String))
    (hm : ∀ e ∈ m, GoodEntry e) (hkv : GoodEntry ((k, v) : KeyV K × String)) :
    ∀ e ∈ mapSet k v m, GoodEntry e := by
  intro e he
  unfold mapSet at he
  by_cases hany : m.any (fun e => decide (e.1 = k)) = true
  · rw [hany] at he
    simp only [if_true] at he
    rcases List.mem_map.mp he with ⟨e0, he0, heq⟩
    by_cases h0 : e0.1 = k
    · rw [if_pos h0] at heq
      subst heq
      exact ⟨(hm e0 he0).1, hkv.2⟩
    · rw [if_neg h0] at heq
      subst heq
      exact hm e0 he0
  · rw [Bool.not_eq_true _ |>.mp hany] at he
    simp only [Bool.false_eq_true, if_false] at he
    rcases List.mem_append.mp he with h0 | h0
    · exact hm e h0
    · rw [List.mem_singleton] at h0
      subst h0
      exact hkv

theorem mapSet_keys_nodup (k : KeyV K) (v : String)
    (m : List (KeyV K × String)) (h : (m.map Prod.fst).Nodup) :
    ((mapSet k v m).map Prod.fst).Nodup := by
  by_cases hany : m.any (fun e => decide (e.1 = k)) = true
  · rw [mapSet_keys_of_mem k v m hany]
    exact h
  · have hany' := Bool.not_eq_true _ |>.mp hany
    rw [mapSet_absent k v m hany']
    rw [List.map_append]
    rw [List.nodup_append]
    refine ⟨h, by simp, ?_⟩
    intro a ha
    simp only [List.map_cons, List.map_nil, List.mem_singleton]
    intro hak
    rcases List.mem_map.mp ha with ⟨e, he, hek⟩
    exact (any_key_eq_false_iff k m).mp hany' e he (by rw [hek, hak])

theorem foldl_mapSet_good (es : List (KeyV K × String)) :
    ∀ acc : List (KeyV K × String), (∀ e ∈ acc, GoodEntry e) →
    (∀ e ∈ es, GoodEntry e) →
    ∀ e ∈ es.foldl (fun m e => mapSet e.1 e.2 m) acc, GoodEntry e := by
  induction es with
  | nil => intro acc hacc _ e he; exact hacc e he
  | cons e0 rest ih =>
    intro acc hacc hes e he
    simp only [List.foldl_cons] at he
    exact ih (mapSet e0.1 e0.2 acc)
      (mapSet_good _ _ _ hacc (hes e0 (by simp)))
      (fun e' he' => hes e' (by simp [he'])) e he

theorem foldl_mapSet_nodup (es : List (KeyV K × String)) :
    ∀ acc : List (KeyV K × String), (acc.map Prod.fst).Nodup →
    (((es.foldl (fun m e => mapSet e.1 e.2 m) acc).map Prod.fst)).Nodup := by
  induction es with
  | nil => intro acc h; exact h
  | cons e0 rest ih =>
    intro acc h
    simp only [List.foldl_cons]
    exact ih (mapSet e0.1 e0.2 acc) (mapSet_keys_nodup _ _ _ h)

theorem foldl_mapSet_app (es : List (KeyV K × String)) :
    ∀ acc : List (KeyV K × String), (es.map Prod.fst).Nodup →
    (∀ e ∈ es, acc.any (fun x => decide (x.1 = e.1)) = false) →
    es.foldl (fun m e => mapSet e.1 e.2 m) acc = acc ++ es := by
  induction es with
  | nil => intro acc _ _; simp
  | cons e0 rest ih =>
    intro acc hnd hdisj
    simp only [List.foldl_cons]
    have h0 : acc.any (fun x => decide (x.1 = e0.1)) = false :=
      hdisj e0 (by simp)
    rw [mapSet_absent _ _ _ h0]
    simp only [List.map_cons] at hnd
    have hnd' := List.nodup_cons.mp hnd
    rw [ih (acc ++ [(e0.1, e0.2)]) hnd'.2 ?_]
    · simp
    · intro e he
      rw [List.any_append, Bool.or_eq_false_iff]
      refine ⟨hdisj e (by simp [he]), ?_⟩
      simp only [List.any_cons, List.any_nil, Bool.or_false,
        decide_eq_false_iff_not]
      intro hke
      exact hnd'.1 (hke ▸ List.mem_map_of_mem Prod.fst he)

theorem inv_insert (k : KeyV K) (v : String) (st : MState K)
    (ledger' : List String) (hinv : Inv st) (hk : validKey k = true)
    (hv : Uid.lowerStr v = v) :
    Inv (⟨mapSet k v
      (if st.map.any (fun e => decide (e.1 = k)) then mapDelete k st.map
        else st.map), ledger'⟩ : MState K) := by
  constructor
  · apply mapSet_keys_nodup
    by_cases hany : st.map.any (fun e => decide (e.1 = k)) = true
    · rw [if_pos hany]
      exact List.Nodup.sublist (List.Sublist.map _ (List.filter_sublist _))
        hinv.1
    · rw [if_neg hany]
      exact hinv.1
  · apply mapSet_good
    · intro e he
      by_cases hany : st.map.any (fun e => decide (e.1 = k)) = true
      · rw [if_pos hany] at he
        exact hinv.2 e (mapDelete_mem _ _ _ he)
      · rw [if_neg hany] at he
        exact hinv.2 e he
    · exact ⟨hk, hv⟩

theorem inv_generateUIDFor (rands : List Uid.Quad) (key : KeyV K)
    (st : MState K) (r : Option String) (st' : MState K)
    (h : generateUIDFor rands key st = some (r, st')) (hinv : Inv st) :
    Inv st' := by
  by_cases hk : validKey key = true
  · simp only [generateUIDFor, if_pos hk] at h
    split at h
    · exact absurd h (by simp)
    · rename_i i ledger' hg
      injection h with h1
      injection h1 with h2 h3
      subst h3
      obtain ⟨_, _, _, hlow⟩ := Uid.generate_some rands st.ledger i ledger' hg
      exact inv_insert key i st ledger' hinv hk hlow
  · simp only [generateUIDFor, if_neg hk] at h
    injection h with h1
    injection h1 with h2 h3
    subst h3
    exact hinv

theorem inv_set (e : KeyV K × String) (st : MState K) (hinv : Inv st) :
    Inv (set e st).2 := by
  simp only [set]
  split
  · exact hinv
  · split
    · exact hinv
    · split
      · exact hinv
      · rename_i hkey _
        simp only [Bool.not_eq_true', Bool.not_eq_false] at hkey
        exact inv_insert e.1 (Uid.lowerStr e.2) st st.ledger hinv hkey
          (Uid.lowerStr_idem e.2)

theorem inv_restore (batch : List (KeyV K × String)) (st : MState K)
    (hinv : Inv st) : Inv (restore batch st).2 := by
  simp only [restore]
  split
  · exact hinv
  · rename_i hchk
    simp only [Bool.not_eq_true', Bool.not_eq_false] at hchk
    constructor
    · exact foldl_mapSet_nodup _ [] (by simp)
    · apply foldl_mapSet_good _ [] (by simp)
      intro e he
      rcases List.mem_map.mp he with ⟨e0, _, heq⟩
      subst heq
      exact ⟨checkEntries_sound _ [] hchk _ he, Uid.lowerStr_idem e0.2⟩

theorem inv_deleteUID (u : String) (st : MState K) (hinv : Inv st) :
    Inv (deleteUID u st).2 := by
  unfold deleteUID
  split
  · exact hinv
  · constructor
    · exact List.Nodup.sublist (List.Sublist.map _ (List.filter_sublist _))
        hinv.1
    · intro e he
      exact hinv.2 e (mapDelete_mem _ _ _ he)

theorem inv_deleteUIDFor (key : KeyV K) (st : MState K) (hinv : Inv st) :
    Inv (deleteUIDFor key st).2 := by
  unfold deleteUIDFor
  split
  · constructor
    · exact List.Nodup.sublist (List.Sublist.map _ (List.filter_sublist _))
        hinv.1
    · intro e he
      exact hinv.2 e (mapDelete_mem _ _ _ he)
  · exact hinv

theorem reachable_inv (st : MState K) (h : Reachable st) : Inv st := by
  induction h with
  | init =>
    exact ⟨by simp [emptyState], by intro e he; exact absurd he (List.not_mem_nil e)⟩
  | genStep rands key st r st' _ hgen ih =>
    exact inv_generateUIDFor rands key st r st' hgen ih
  | setStep e st _ ih => exact inv_set e st ih
  | restoreStep batch st _ ih => exact inv_restore batch st ih
  | deleteUIDStep u st _ ih => exact inv_deleteUID u st ih
  | deleteUIDForStep key st _ ih => exact inv_deleteUIDFor key st ih
  | deleteAllStep st _ ih =>
    exact ⟨by simp [deleteAll],
      by intro e he; exact absurd he (List.not_mem_nil e)⟩

/-- C5 (amended): for every manager state reachable through the validated
operations whose stored identifiers are pairwise distinct, `entries()`
followed by `restore` on a freshly constructed manager reproduces the same
`keys()`, `uids()` and `entries()`.  The distinctness hypothesis cannot be
dropped: `set` does not record its identifier in the generator's ledger, so
a later `generate` call can issue a duplicate (see the counterexample). -/
theorem restore_roundtrip (st : MState K) (hr : Reachable st)
    (hnd : (uids st).Nodup) :
    (restore (entries st) (emptyState K)).1 = true ∧
    keys ((restore (entries st) (emptyState K)).2) = keys st ∧
    uids ((restore (entries st) (emptyState K)).2) = uids st ∧
    entries ((restore (entries st) (emptyState K)).2) = entries st := by
  obtain ⟨hkeys, hgood⟩ := reachable_inv st hr
  have hlow : ∀ e ∈ st.map, Uid.lowerStr e.2 = e.2 := fun e he => (hgood e he).2
  have hval : ∀ e ∈ st.map, validKey e.1 = true := fun e he => (hgood e he).1
  have hes : st.map.map (fun e => (e.1, Uid.lowerStr e.2)) = st.map :=
    map_lower_self st.map hlow
  have hchk : checkEntries [] st.map = true :=
    checkEntries_complete st.map [] hval hnd
      (by intro v _ h; exact absurd h (List.not_mem_nil v))
  have hfold : st.map.foldl (fun m e => mapSet e.1 e.2 m) [] = [] ++ st.map :=
    foldl_mapSet_app st.map [] hkeys (by intro e _; rfl)
  simp only [restore, entries]
  rw [hes, hchk]
  simp only [Bool.not_true, Bool.false_eq_true, if_false, ite_false]
  rw [hfold]
  simp only [List.nil_append]
  refine ⟨?_, ?_, ?_, ?_⟩ <;> trivial

/-- Witness for `restore_roundtrip` at a concrete reachable single-entry
manager. -/
theorem restore_roundtrip_witness :
    (restore (entries
        (⟨[(KeyV.val "a", "00000000-0000-4000-8000-000000000000")],
          ["00000000-0000-4000-8000-000000000000"]⟩ : MState String))
      (emptyState String)).1 = true ∧
    keys ((restore (entries
        (⟨[(KeyV.val "a", "00000000-0000-4000-8000-000000000000")],
          ["00000000-0000-4000-8000-000000000000"]⟩ : MState String))
      (emptyState String)).2) =
      keys (⟨[(KeyV.val "a", "00000000-0000-4000-8000-000000000000")],
        ["00000000-0000-4000-8000-000000000000"]⟩ : MState String) ∧
    uids ((restore (entries
        (⟨[(KeyV.val "a", "00000000-0000-4000-8000-000000000000")],
          ["00000000-0000-4000-8000-000000000000"]⟩ : MState String))
      (emptyState String)).2) =
      uids (⟨[(KeyV.val "a", "00000000-0000-4000-8000-000000000000")],
        ["00000000-0000-4000-8000-000000000000"]⟩ : MState String) ∧
    entries ((restore (entries
        (⟨[(KeyV.val "a", "00000000-0000-4000-8000-000000000000")],
          ["00000000-0000-4000-8000-000000000000"]⟩ : MState String))
      (emptyState String)).2) =
      entries (⟨[(KeyV.val "a", "00000000-0000-4000-8000-000000000000")],
        ["00000000-0000-4000-8000-000000000000"]⟩ : MState String) := by
  have hr : Reachable
      (⟨[(KeyV.val "a", "00000000-0000-4000-8000-000000000000")],
        ["00000000-0000-4000-8000-000000000000"]⟩ : MState String) :=
    Reachable.genStep [(0, 0, 0, 0)] (KeyV.val "a") (emptyState String)
      (some "00000000-0000-4000-8000-000000000000") _ Reachable.init
      (by decide)
  exact restore_roundtrip _ hr (by decide)

/-- C5 counterexample to the claim as stated: the state below is built
through validated operations only — `set` of a valid identifier followed by
a `generateUIDFor` whose randomness happens to format to that same
identifier (which the ledger does not forbid, because `set` never writes the
ledger) — yet `restore(entries())` on a fresh manager rejects the duplicate
identifier, returns `false`, and leaves the fresh manager empty, so
`keys()` is not reproduced. -/
theorem restore_roundtrip_cex :
    Reachable
      (⟨[(KeyV.val "a", "00000000-0000-4000-8000-000000000000"),
         (KeyV.val "b", "00000000-0000-4000-8000-000000000000")],
        ["00000000-0000-4000-8000-000000000000"]⟩ : MState String) ∧
    (restore (entries
        (⟨[(KeyV.val "a", "00000000-0000-4000-8000-000000000000"),
           (KeyV.val "b", "00000000-0000-4000-8000-000000000000")],
          ["00000000-0000-4000-8000-000000000000"]⟩ : MState String))
      (emptyState String)).1 = false ∧
    keys ((restore (entries
        (⟨[(KeyV.val "a", "00000000-0000-4000-8000-000000000000"),
           (KeyV.val "b", "00000000-0000-4000-8000-000000000000")],
          ["00000000-0000-4000-8000-000000000000"]⟩ : MState String))
      (emptyState String)).2) ≠
      keys (⟨[(KeyV.val "a", "00000000-0000-4000-8000-000000000000"),
         (KeyV.val "b", "00000000-0000-4000-8000-000000000000")],
        ["00000000-0000-4000-8000-000000000000"]⟩ : MState String) := by
  refine ⟨?_, by decide, by decide⟩
  have h1 : Reachable
      ((set ((KeyV.val "a" : KeyV String),
        "00000000-0000-4000-8000-000000000000") (emptyState String)).2) :=
    Reachable.setStep _ _ Reachable.init
  have he : (set ((KeyV.val "a" : KeyV String),
      "00000000-0000-4000-8000-000000000000") (emptyState String)).2 =
      ⟨[(KeyV.val "a", "00000000-0000-4000-8000-000000000000")], []⟩ := by
    decide
  rw [he] at h1
  exact Reachable.genStep [(0, 0, 0, 0)] (KeyV.val "b") _
    (some "00000000-0000-4000-8000-000000000000") _ h1 (by decide)

end UIDManager
